import Mathlib

/-
Verification of the cyberfluxai core subsystems against their specification:
the faithfulness engine (backend/reports/faithfulness.py) and the snippet
repair pipeline (backend/agents/code_fixer_agent.py), shallowly embedded in
Lean 4.  Python floats are modelled by exact rationals, Python strings by
Lean strings (lists of characters); the specific regular expressions of the
source are compiled by hand into deterministic matchers whose backtracking
was resolved statically (each resolution is justified in a comment).  The
ASCII fragment of Python's case folding, whitespace and word-character
classes is modelled; the claims under study only exercise that fragment.
-/

set_option allowUnsafeReducibility true
set_option maxRecDepth 8192
attribute [local semireducible] Rat.mul Rat.inv Rat.add Rat.sub Rat.div Rat.neg
attribute [local semireducible] Rat.normalize Rat.blt Rat.floor Rat.ceil

namespace Cyberflux

/-- Python whitespace characters (the set matched by the regex class for
whitespace and stripped by str.strip), restricted to the one-byte range. -/
def isPySpace (c : Char) : Bool :=
  c = ' ' || c = '\t' || c = '\n' || c = '\r' || c = '\x0b' || c = '\x0c' ||
  c = '\x85' || c = '\xa0'

/-- Word characters of the regex class backslash-w, ASCII fragment:
letters, digits and underscore. -/
def isWordChar (c : Char) : Bool := c.isAlphanum || c = '_'

/-- Word-character test lifted to an optional character; the absent
character (string edge) counts as a non-word position. -/
def isWordOpt : Option Char → Bool
  | some c => isWordChar c
  | none => false

/-- Python str.lower, ASCII fragment. -/
def lowerStr (s : String) : String := ⟨s.data.map Char.toLower⟩

/-- Substring test: containsSeq needle hay is the Python expression
needle in hay on strings (empty needle always succeeds). -/
def containsSeq (needle : List Char) : List Char → Bool
  | [] => needle.isEmpty
  | c :: t => needle.isPrefixOf (c :: t) || containsSeq needle (t : List Char)

/-- Substring test on strings; hay first to read as hay contains needle. -/
def containsStr (hay needle : String) : Bool := containsSeq needle.data hay.data

/-- Python str.strip() on the modelled whitespace set. -/
def pyStripList (cs : List Char) : List Char :=
  ((cs.dropWhile isPySpace).reverse.dropWhile isPySpace).reverse

/-- Python str.strip() on strings. -/
def pyStrip (s : String) : String := ⟨pyStripList s.data⟩

/-- Python str.splitlines restricted to the newline separator: the empty
string yields no lines, and a trailing newline does not open a new line. -/
def splitNLCore : List Char → List (List Char)
  | [] => [[]]
  | c :: t =>
    if c = '\n' then
      match t with
      | [] => [[]]
      | _ => [] :: splitNLCore t
    else
      match splitNLCore t with
      | h :: r => (c :: h) :: r
      | [] => [[c]]

/-- Python str.splitlines (newline separator only): list of line contents. -/
def pyLines (cs : List Char) : List (List Char) :=
  match cs with
  | [] => []
  | _ => splitNLCore cs

/-- Value of a run of decimal digits. -/
def digitsToNat (l : List Char) : Nat := l.foldl (fun a c => 10 * a + (c.toNat - 48)) 0

/-- Python float(s) for the shapes produced by the number regex after the
comma removal the source performs: digits, optionally a dot and more
digits.  The model is exact where binary floats only approximate. -/
def parseNumVal (l : List Char) : ℚ :=
  let l2 := l.filter (fun c => c ≠ ',')
  let ip := l2.takeWhile (fun c => c ≠ '.')
  let fp := (l2.dropWhile (fun c => c ≠ '.')).drop 1
  (digitsToNat ip : ℚ) + (digitsToNat fp : ℚ) / ((10 : ℚ) ^ fp.length)

/-- Python float(p.strip(chr 37)) for a percent-claim text: the trailing
percent sign is removed and the remaining numeral parsed. -/
def parsePercentVal (l : List Char) : ℚ := parseNumVal (l.takeWhile (fun c => c ≠ '%'))

/-- Round-half-to-even on an exact rational, the tie rule Python's round
uses (the model ignores the binary-float representation error). -/
def halfEven (q : ℚ) : ℤ :=
  if q - ⌊q⌋ < 1/2 then ⌊q⌋
  else if 1/2 < q - ⌊q⌋ then ⌊q⌋ + 1
  else if ⌊q⌋ % 2 = 0 then ⌊q⌋ else ⌊q⌋ + 1

/-- Python round(x, 2) on the exact-rational model. -/
def pyRound2 (q : ℚ) : ℚ := (halfEven (100 * q) : ℚ) / 100

/-
The faithfulness engine, backend/reports/faithfulness.py.
-/

/-- One evidence row.  The source accepts arbitrary dicts; only the columns
the claim-support logic consults are modelled (src, dst, attackType and the
first byte-count column Bytes_int).  A field holds none when the row lacks
the key, which pandas renders as NaN. -/
structure Row where
  src : Option String
  dst : Option String
  attackType : Option String
  Bytes_int : Option Int
deriving DecidableEq

/-- The llm_output argument: a summary string and the text fields of the
recommendation list. -/
structure Narrative where
  summary : String
  recommendations : List String
deriving DecidableEq

/-- Lines 44 to 46 and 121 to 123: the narrative text searched for claims,
the summary and each recommendation each followed by one space. -/
def narrativeText (llm : Narrative) : String :=
  llm.recommendations.foldl (fun acc r => acc ++ r ++ " ") (llm.summary ++ " ")

/-- A parsed claim (lines 129 to 159): percent, fraction (with numerator,
denominator and stored ratio) or plain number, each keeping its text span. -/
inductive Claim where
  | percent : String → ℚ → Claim
  | fraction : String → ℚ → ℚ → ℚ → Claim
  | number : String → ℚ → Claim
deriving DecidableEq

/-- The aggregates the claim-support logic consults (lines 58 to 118):
row count, suspicious-row count and per-attack-type counts when the
attackType column exists, and the total of the first byte column when one
exists.  The frequency tables for src and dst, the mean duration and the
flags distributions also computed there are never read back by the
support logic or the trust score and are not modelled. -/
structure Aggs where
  n_rows : Nat
  suspicious_rows : Option Nat
  attack_counts : List (String × Nat)
  total_bytes : Option Int
deriving DecidableEq

/-- A column of the evidence frame exists when at least one row dict has
the key, which is how pandas builds a frame from a list of dicts. -/
def attackTypePresent (rows : List Row) : Bool := rows.any (fun r => r.attackType.isSome)

/-- First-occurrence deduplication with occurrence counts: the outcome of
value_counts().to_dict() up to ordering, which no consumer depends on
(the per-attack loop only existentially scans the pairs). -/
def countPairs (l : List String) : List (String × Nat) :=
  (l.foldl (fun acc k => if acc.contains k then acc else acc ++ [k]) []).map
    (fun k => (k, l.count k))

/-- Lines 58 to 118: aggregate computation.  A missing attackType value
becomes the string nan under astype(str) and so counts as suspicious;
fillna turns it into unknown for the per-type counts. -/
def computeAggs (rows : List Row) : Aggs :=
  { n_rows := rows.length
    suspicious_rows :=
      if attackTypePresent rows then
        some ((rows.filter
          (fun r => lowerStr (r.attackType.getD "nan") ≠ "normal")).length)
      else none
    attack_counts :=
      if attackTypePresent rows then
        countPairs (rows.map (fun r => r.attackType.getD "unknown"))
      else []
    total_bytes :=
      if rows.any (fun r => r.Bytes_int.isSome) then
        some ((rows.map (fun r => r.Bytes_int.getD 0)).sum)
      else none }

/-
Hand-compiled matchers for the four claim regexes.  Each matcher tries the
pattern anchored at the head of its input and returns the matched prefix
and the remaining input.  prev is the character preceding the current
position, needed by the word-boundary assertions.  The quantifier
backtracking of the originals collapses: a maximal digit run followed by a
mandatory non-digit literal leaves nothing for shorter alternatives to
match, so each case below enumerates the surviving alternatives in the
order the engine would reach them.
-/

/-- One octet-and-dot step of the address pattern: one to three digits (a
longer maximal run can never back off onto a digit position, so it fails)
followed by a literal dot. -/
def octetDot (cs : List Char) : Option (List Char × List Char) :=
  let p := List.span Char.isDigit cs
  if p.1.length = 0 || 3 < p.1.length then none
  else
    match p.2 with
    | '.' :: r2 => some (p.1 ++ ['.'], r2)
    | _ => none

/-- Final octet of the address pattern: one to three digits followed by a
word boundary (the next character, if any, is not a word character). -/
def octetEnd (cs : List Char) : Option (List Char × List Char) :=
  let p := List.span Char.isDigit cs
  if p.1.length = 0 || 3 < p.1.length then none
  else if isWordOpt p.2.head? then none
  else some (p.1, p.2)

/-- IP_PATTERN (line 22): word boundary, three octet-dot groups, a final
octet, word boundary.  The leading boundary holds exactly when the
previous character is not a word character, since the match starts with a
digit. -/
def matchIP (prev : Option Char) (cs : List Char) : Option (List Char × List Char) :=
  if isWordOpt prev then none
  else
    match octetDot cs with
    | none => none
    | some (a, r1) =>
      match octetDot r1 with
      | none => none
      | some (b, r2) =>
        match octetDot r2 with
        | none => none
        | some (c, r3) =>
          match octetEnd r3 with
          | none => none
          | some (d, r4) => some (a ++ b ++ c ++ d, r4)

/-- PERCENT_PATTERN (line 24): word boundary, one to three digits, an
optional dot-digits group, a percent sign, word boundary.  Since the
percent sign is not a word character, the trailing boundary demands a word
character right after it; a bare percentage at the end of the text or
before a space therefore never matches (faithful to the source pattern). -/
def matchPercent (prev : Option Char) (cs : List Char) : Option (List Char × List Char) :=
  if isWordOpt prev then none
  else
    let p := List.span Char.isDigit cs
    if p.1.length = 0 || 3 < p.1.length then none
    else
      match p.2 with
      | '%' :: r2 => if isWordOpt r2.head? then some (p.1 ++ ['%'], r2) else none
      | '.' :: r1 =>
        let q := List.span Char.isDigit r1
        if q.1.length = 0 then none
        else
          match q.2 with
          | '%' :: r3 =>
            if isWordOpt r3.head? then some (p.1 ++ '.' :: q.1 ++ ['%'], r3) else none
          | _ => none
      | _ => none

/-- NUMBER_PATTERN (line 23): word boundary, digits, an optional comma or
dot, optional digits, word boundary.  The alternatives survive in this
order: separator with the full second run (boundary after the last
digit), separator alone (the following digit supplies the boundary after
the non-word separator), no separator (boundary after the first run). -/
def matchNumber (prev : Option Char) (cs : List Char) : Option (List Char × List Char) :=
  if isWordOpt prev then none
  else
    let p := List.span Char.isDigit cs
    if p.1.length = 0 then none
    else
      match p.2 with
      | [] => some (p.1, [])
      | sep :: rs =>
        if sep = ',' || sep = '.' then
          let q := List.span Char.isDigit rs
          if q.1.length ≠ 0 then
            if isWordOpt q.2.head? then some (p.1 ++ [sep], rs)
            else some (p.1 ++ sep :: q.1, q.2)
          else
            if isWordOpt q.2.head? then some (p.1 ++ [sep], rs)
            else some (p.1, p.2)
        else if isWordChar sep then none
        else some (p.1, p.2)

/-- Maximal run of digits and commas. -/
def dcSpan (cs : List Char) : List Char × List Char :=
  List.span (fun c => c.isDigit || c = ',') cs

/-- Drop the trailing commas of a digit-comma run. -/
def dropTrailCommas (l : List Char) : List Char :=
  (l.reverse.dropWhile (fun c => c = ',')).reverse

/-- The num and den group shape of the fraction pattern (line 140), one to
three digits then optionally more digits or commas ending in a digit,
matches exactly the prefixes of a digit-comma run that end in a digit.
Greedy matching takes the longest; this lists all of them longest first
for the num group, whose continuation can force backtracking. -/
def numCandidates (t : List Char) : List (List Char) :=
  (List.range t.length).reverse.filterMap (fun i =>
    let p := t.take (i + 1)
    match p.getLast? with
    | some c => if c.isDigit then some p else none
    | none => none)

/-- The separator of the fraction pattern: maximal whitespace (a shorter
run would leave a whitespace character where the letter o is required),
then the alternatives out of and of, case-insensitively, in pattern
order. -/
def sepSearch (r1 : List Char) : Option (List Char × List Char) :=
  let w := List.span isPySpace r1
  let low := w.2.map Char.toLower
  if "out of".data.isPrefixOf low then some (w.1 ++ w.2.take 6, w.2.drop 6)
  else if "of".data.isPrefixOf low then some (w.1 ++ w.2.take 2, w.2.drop 2)
  else none

/-- The den group: greedy, nothing follows, so it takes the digit-comma
run up to its last digit (trailing commas cannot end the group). -/
def denMatch (cs : List Char) : Option (List Char × List Char) :=
  match cs with
  | c :: _ =>
    if c.isDigit then
      let t := dcSpan cs
      let t' := dropTrailCommas t.1
      some (t', t.1.drop t'.length ++ t.2)
    else none
  | [] => none

/-- The fraction pattern of line 140 anchored at the current position:
returns the whole match, the num text and the den text, plus the rest of
the input.  No word-boundary assertions appear in this pattern. -/
def matchFraction (cs : List Char) : Option ((List Char × List Char × List Char) × List Char) :=
  match cs with
  | c :: _ =>
    if c.isDigit then
      let t := dcSpan cs
      let t' := dropTrailCommas t.1
      (numCandidates t').findSome? (fun nT =>
        let afterNum := t.1.drop nT.length ++ t.2
        match sepSearch afterNum with
        | none => none
        | some (sepC, r2) =>
          let w2 := List.span isPySpace r2
          match denMatch w2.2 with
          | none => none
          | some (dT, r3) => some ((nT ++ sepC ++ w2.1 ++ dT, nT, dT), r3))
    else none
  | [] => none

/-- re.finditer: scan left to right, trying the matcher at every position,
and resume after each (never empty) match.  The fuel argument bounds the
recursion; one more than the input length never runs out, because every
step consumes at least one character. -/
def scanM (M : Option Char → List Char → Option (List Char × List Char)) :
    Nat → Option Char → List Char → List (List Char)
  | 0, _, _ => []
  | _ + 1, _, [] => []
  | fuel + 1, prev, c :: cs =>
    match M prev (c :: cs) with
    | some (pre, rest) =>
      if pre.isEmpty then scanM M fuel (some c) cs
      else pre :: scanM M fuel pre.getLast? rest
    | none => scanM M fuel (some c) cs

/-- re.finditer for the fraction pattern, keeping the captured groups. -/
def scanFraction : Nat → List Char → List (List Char × List Char × List Char)
  | 0, _ => []
  | _ + 1, [] => []
  | fuel + 1, c :: cs =>
    match matchFraction (c :: cs) with
    | some (groups, rest) => groups :: scanFraction fuel rest
    | none => scanFraction fuel cs

/-- All address-like tokens of a text (re.findall with IP_PATTERN). -/
def findAllIPs (s : String) : List String :=
  (scanM matchIP (s.data.length + 1) none s.data).map (fun l => ⟨l⟩)

/-- Lines 129 to 159: parse percent, fraction and number claims from the
narrative text, in that order.  A number that is one to three bare digits
and reappears in the text followed by a dot is skipped as a probable
address octet.  A fraction stores numerator over max 1 denominator. -/
def parseClaims (text : String) : List Claim :=
  let n := text.data.length + 1
  ((scanM matchPercent n none text.data).map
    (fun l => Claim.percent ⟨l⟩ (parsePercentVal l)))
  ++ ((scanFraction n text.data).map (fun g =>
        let nv : ℚ := (digitsToNat (g.2.1.filter (fun c => c ≠ ',')) : ℚ)
        let dv : ℚ := (digitsToNat (g.2.2.filter (fun c => c ≠ ',')) : ℚ)
        Claim.fraction ⟨g.1⟩ nv dv (nv / max 1 dv)))
  ++ ((scanM matchNumber n none text.data).filterMap (fun l =>
        if l.length ≤ 3 && l.all Char.isDigit && containsSeq (l ++ ['.']) text.data
        then none
        else some (Claim.number ⟨l⟩ (parseNumVal l))))

/-- Line 207: an attack-type name counts as mentioned when the lowered
text contains the lowered name, the name with underscores as spaces, or
its first underscore-separated token. -/
def nameInText (atk : String) (text : String) : Bool :=
  let lt := lowerStr text
  containsStr lt (lowerStr atk) ||
  containsStr lt (lowerStr ⟨atk.data.map (fun c => if c = '_' then ' ' else c)⟩) ||
  containsStr lt (lowerStr ⟨atk.data.takeWhile (fun c => c ≠ '_')⟩)

/-- Lines 163 to 209: the per-claim support decision.  The percent branch
reproduces the source's elif: when the suspicious conditions all hold the
bytes alternative is never consulted, and a failed tolerance check leaves
the claim unsupported even when the text mentions bytes. -/
def okClaim (text : String) (aggs : Aggs) (tol : ℚ) : Claim → Bool
  | Claim.fraction _ _ d _ =>
    let ctx := lowerStr text
    if containsStr ctx "row" || containsStr ctx "flow" || containsStr ctx "record" then
      if aggs.n_rows ≠ 0 then
        decide (|d - (aggs.n_rows : ℚ)| ≤ max 1 ((aggs.n_rows : ℚ) * tol))
      else false
    else false
  | Claim.percent _ v =>
    let ctx := lowerStr text
    if containsStr ctx "suspicious" && aggs.suspicious_rows.isSome &&
        decide (aggs.n_rows ≠ 0) then
      match aggs.suspicious_rows with
      | some s =>
        let actual : ℚ := 100 * (s : ℚ) / max 1 (aggs.n_rows : ℚ)
        decide (|actual - v| ≤ max 1 (actual * tol))
      | none => false
    else containsStr ctx "bytes" && aggs.total_bytes.isSome
  | Claim.number _ v =>
    let ctx := lowerStr text
    let ok1 :=
      (containsStr ctx "row" || containsStr ctx "flow" || containsStr ctx "record") &&
      decide (|v - (aggs.n_rows : ℚ)| / max 1 ((aggs.n_rows : ℚ)) ≤ tol)
    let ok2 := ok1 ||
      ((containsStr ctx "suspicious" || containsStr ctx "flagged") &&
        match aggs.suspicious_rows with
        | some s => decide (|v - (s : ℚ)| / max 1 ((s : ℚ)) ≤ tol)
        | none => false)
    ok2 ||
      (!aggs.attack_counts.isEmpty &&
        aggs.attack_counts.any (fun p =>
          decide (|v - (p.2 : ℚ)| ≤ max 1 ((p.2 : ℚ) * tol)) && nameInText p.1 text))

/-- Line 51: an address is verified when it equals the src or dst field of
some evidence row (a missing field reads as the empty string). -/
def ipMatchesRow (ip : String) (r : Row) : Bool :=
  ip = r.src.getD "" || ip = r.dst.getD ""

/-- First-occurrence deduplication, standing in for Python's set whose
iteration order no consumer of this function depends on. -/
def dedupFirst (l : List String) : List String :=
  l.foldl (fun acc k => if acc.contains k then acc else acc ++ [k]) []

/-- Lines 39 to 55: compute_simple_faithfulness.  The trust is the
verified fraction of the distinct claimed addresses, one when none are
claimed, rounded to two decimals. -/
structure SimpleResult where
  trust : ℚ
  ips_claimed : List String
  ips_verified : Nat
deriving DecidableEq

def compute_simple_faithfulness (llm : Narrative) (evidence : List Row) : SimpleResult :=
  let ips := dedupFirst (findAllIPs (narrativeText llm))
  let verified := (ips.filter (fun ip => evidence.any (ipMatchesRow ip))).length
  let raw : ℚ := if ips.isEmpty then 1 else (verified : ℚ) / (ips.length : ℚ)
  ⟨pyRound2 raw, ips, verified⟩

/-- Lines 215 to 227: the report of compute_detailed_faithfulness. -/
structure Report where
  ip_check : SimpleResult
  aggregates : Aggs
  claims_parsed : List Claim
  supported_claims : List Claim
  unsupported_claims : List Claim
  trust_score : ℚ
deriving DecidableEq

/-- Lines 89 to 228: compute_detailed_faithfulness.  Claims are parsed
from the narrative text, each is marked supported or unsupported by
okClaim, and the trust score starts from the address-check trust, loses
half of the unsupported fraction when any claims parsed, is floored at
zero and rounded to two decimals. -/
def compute_detailed_faithfulness (llm : Narrative) (evidence : List Row) (tol : ℚ) :
    Report :=
  let aggs := computeAggs evidence
  let text := narrativeText llm
  let ipr := compute_simple_faithfulness llm evidence
  let claims := parseClaims text
  let supported := claims.filter (okClaim text aggs tol)
  let unsupported := claims.filter (fun c => ! okClaim text aggs tol c)
  let score :=
    if claims.isEmpty then ipr.trust
    else max 0 (ipr.trust - ((unsupported.length : ℚ) / (claims.length : ℚ)) * (1/2))
  ⟨ipr, aggs, claims, supported, unsupported, pyRound2 score⟩

/-- The default tolerance argument of the source (ten percent). -/
def defaultTol : ℚ := 1/10

/-
The repair pipeline, backend/agents/code_fixer_agent.py.
-/

/-- Case-insensitive prefix test; the needle is given lowercased. -/
def isPrefixCI (needle cs : List Char) : Bool :=
  needle.isPrefixOf ((cs.take needle.length).map Char.toLower)

/-- Split the input at the first occurrence of the needle, returning the
text before it and the text after it, or none when absent. -/
def splitAtSub (needle : List Char) : List Char → Option (List Char × List Char)
  | [] => if needle.isEmpty then some ([], []) else none
  | c :: t =>
    if needle.isPrefixOf (c :: t) then some ([], (c :: t).drop needle.length)
    else
      match splitAtSub needle t with
      | some (pre, rest) => some (c :: pre, rest)
      | none => none

/-- splitAtSub up to ASCII case. -/
def splitAtSubCI (needle : List Char) : List Char → Option (List Char × List Char)
  | [] => if needle.isEmpty then some ([], []) else none
  | c :: t =>
    if isPrefixCI needle (c :: t) then some ([], (c :: t).drop needle.length)
    else
      match splitAtSubCI needle t with
      | some (pre, rest) => some (c :: pre, rest)
      | none => none

/-- The fenced-block regex of line 43: a triple-backtick opener, an
optional case-insensitive language tag, greedy whitespace, then the lazy
group up to the next triple backtick.  The tag and the whitespace contain
no backtick, so if the first opener finds no closer no later one can, and
the search is deterministic. -/
def fenceExtract (cs : List Char) : Option (List Char) :=
  match splitAtSub "```".data cs with
  | none => none
  | some (_, rest1) =>
    let rest2 := if isPrefixCI "python".data rest1 then rest1.drop 6 else rest1
    let rest3 := rest2.dropWhile isPySpace
    match splitAtSub "```".data rest3 with
    | none => none
    | some (content, _) => some content

/-- The code-tag regex of line 47, case-insensitive, same structure. -/
def codeTagExtract (cs : List Char) : Option (List Char) :=
  match splitAtSubCI "<code>".data cs with
  | none => none
  | some (_, rest1) =>
    let rest2 := rest1.dropWhile isPySpace
    match splitAtSubCI "</code>".data rest2 with
    | none => none
    | some (content, _) => some content

/-- Lines 34 to 56: extract_code_block.  Fenced block first, then a code
tag, else the stripped whole text.  The pythonic-hint branch of line 52
returns text.strip() exactly as the final fallback does, so the two
collapse into one case here. -/
def extract_code_block (text : String) : String :=
  if text = "" then ""
  else
    match fenceExtract text.data with
    | some c => pyStrip ⟨c⟩
    | none =>
      match codeTagExtract text.data with
      | some c => pyStrip ⟨c⟩
      | none => pyStrip text

/-- Lines 17 to 31: replace smart quotes, dashes, the ellipsis and the
non-breaking space by ASCII equivalents.  No replacement target is itself
a replaced character, so the source's sequential str.replace calls equal
this single pass. -/
def replace_smart (s : String) : String :=
  ⟨s.data.flatMap (fun c =>
    if c = '‘' then [Char.ofNat 39]
    else if c = '’' then [Char.ofNat 39]
    else if c = '“' then ['"']
    else if c = '”' then ['"']
    else if c = '—' then ['-']
    else if c = '–' then ['-']
    else if c = '…' then ['.', '.', '.']
    else if c = ' ' then [' ']
    else [c])⟩

/-- One alternative of the label regex of line 101: the literal label at
position zero followed by greedy whitespace. -/
def dropLabel (lab : List Char) (cs : List Char) : Option (List Char) :=
  if isPrefixCI lab cs then some ((cs.drop lab.length).dropWhile isPySpace) else none

/-- Line 101: strip a leading Answer:, Result: or Output: label,
case-insensitively; without a multiline flag only position zero can
match, and the alternatives are mutually exclusive there. -/
def stripLabel (s : String) : String :=
  match dropLabel "answer:".data s.data with
  | some r => ⟨r⟩
  | none =>
    match dropLabel "result:".data s.data with
    | some r => ⟨r⟩
    | none =>
      match dropLabel "output:".data s.data with
      | some r => ⟨r⟩
      | none => s

/-- Hexadecimal digit value. -/
def hexVal (c : Char) : Option Nat :=
  if c.isDigit then some (c.toNat - 48)
  else if 'a' ≤ c && c ≤ 'f' then some (c.toNat - 87)
  else if 'A' ≤ c && c ≤ 'F' then some (c.toNat - 55)
  else none

/-- Take exactly n hexadecimal digits. -/
def takeHex : Nat → List Char → Option (Nat × List Char)
  | 0, cs => some (0, cs)
  | n + 1, c :: cs =>
    match hexVal c with
    | some v =>
      match takeHex n cs with
      | some (w, rest) => some (v * 16 ^ n + w, rest)
      | none => none
    | none => none
  | _ + 1, [] => none

/-- Octal digit test. -/
def isOctal (c : Char) : Bool := '0' ≤ c && c ≤ '7'

/-- CPython's unicode-escape codec on ASCII input, the decode step of
line 109.  A truncated hex escape, a lone trailing backslash or a named
escape raises; an unknown escape is kept verbatim with its backslash.
Named escapes are modelled as always failing, a strict over-approximation
of CPython, which resolves those naming a real character; no claim
depends on that corner.  The fuel starts above the input length and every
step consumes at least one character, so the fuel case is unreachable. -/
def uEsc : Nat → List Char → Except String (List Char)
  | 0, _ => .error "fuel"
  | _ + 1, [] => .ok []
  | fuel + 1, c :: rest =>
    if c ≠ '\\' then (uEsc fuel rest).map (fun l => c :: l)
    else
      match rest with
      | [] => .error "backslash at end of string"
      | e :: r2 =>
        if e = '\n' then uEsc fuel r2
        else if e = '\\' then (uEsc fuel r2).map (fun l => '\\' :: l)
        else if e = Char.ofNat 39 then (uEsc fuel r2).map (fun l => Char.ofNat 39 :: l)
        else if e = '"' then (uEsc fuel r2).map (fun l => '"' :: l)
        else if e = 'a' then (uEsc fuel r2).map (fun l => Char.ofNat 7 :: l)
        else if e = 'b' then (uEsc fuel r2).map (fun l => Char.ofNat 8 :: l)
        else if e = 'f' then (uEsc fuel r2).map (fun l => Char.ofNat 12 :: l)
        else if e = 'n' then (uEsc fuel r2).map (fun l => '\n' :: l)
        else if e = 'r' then (uEsc fuel r2).map (fun l => '\r' :: l)
        else if e = 't' then (uEsc fuel r2).map (fun l => '\t' :: l)
        else if e = 'v' then (uEsc fuel r2).map (fun l => Char.ofNat 11 :: l)
        else if isOctal e then
          match r2 with
          | d2 :: d3 :: r3 =>
            if isOctal d2 && isOctal d3 then
              (uEsc fuel r3).map (fun l =>
                Char.ofNat (64 * (e.toNat - 48) + 8 * (d2.toNat - 48) + (d3.toNat - 48)) :: l)
            else if isOctal d2 then
              (uEsc fuel (d3 :: r3)).map (fun l =>
                Char.ofNat (8 * (e.toNat - 48) + (d2.toNat - 48)) :: l)
            else (uEsc fuel r2).map (fun l => Char.ofNat (e.toNat - 48) :: l)
          | [d2] =>
            if isOctal d2 then
              (uEsc fuel []).map (fun l => Char.ofNat (8 * (e.toNat - 48) + (d2.toNat - 48)) :: l)
            else (uEsc fuel r2).map (fun l => Char.ofNat (e.toNat - 48) :: l)
          | [] => (uEsc fuel []).map (fun l => Char.ofNat (e.toNat - 48) :: l)
        else if e = 'x' then
          match takeHex 2 r2 with
          | some (v, r3) => (uEsc fuel r3).map (fun l => Char.ofNat v :: l)
          | none => .error "truncated hex escape"
        else if e = 'u' then
          match takeHex 4 r2 with
          | some (v, r3) => (uEsc fuel r3).map (fun l => Char.ofNat v :: l)
          | none => .error "truncated unicode escape"
        else if e = 'U' then
          match takeHex 8 r2 with
          | some (v, r3) => (uEsc fuel r3).map (fun l => Char.ofNat v :: l)
          | none => .error "truncated long unicode escape"
        else if e = 'N' then .error "named escape"
        else (uEsc fuel r2).map (fun l => '\\' :: e :: l)

/-- unicode-escape decoding of a whole list. -/
def uEscape (l : List Char) : Except String (List Char) := uEsc (l.length + 1) l

/-- The lazy group of the JSON-code regex of line 105: the content up to
the first quote that is immediately followed by a comma or a closing
brace; absent such a closer the candidate fails. -/
def jsonCloser : List Char → Option (List Char)
  | [] => none
  | '"' :: d :: r =>
    if d = ',' || d = Char.ofNat 125 then some []
    else
      match jsonCloser (d :: r) with
      | some rest => some ('"' :: rest)
      | none => none
  | ['"'] => none
  | c :: r =>
    match jsonCloser r with
    | some rest => some (c :: rest)
    | none => none

/-- After a quoted code key: whitespace, a colon, whitespace, an opening
quote, then the lazy content. -/
def jsonAttempt (cs : List Char) : Option (List Char) :=
  match cs.dropWhile isPySpace with
  | ':' :: r2 =>
    match r2.dropWhile isPySpace with
    | '"' :: r4 => jsonCloser r4
    | _ => none
  | _ => none

/-- Scan for each occurrence of a quoted code key in order, as the engine
does by advancing one position at a time, and take the first occurrence
whose continuation completes. -/
def jsonFind : List Char → Option (List Char)
  | [] => none
  | c :: t =>
    if "\"code\"".data.isPrefixOf (c :: t) then
      match jsonAttempt ((c :: t).drop 6) with
      | some inner => some inner
      | none => jsonFind t
    else jsonFind t

/-- Lines 103 to 110: when the text carries a JSON code field, unescape
its value and replace the snippet with it, stripped.  The unescape is the
one operation of the pipeline that can raise, which the error case
models. -/
def jsonCodeStage (code : String) : Except String String :=
  match jsonFind code.data with
  | none => .ok code
  | some inner => (uEscape inner).map (fun l => pyStrip ⟨l⟩)

/-- The call-like test of line 68: one or more word characters directly
followed by an opening parenthesis. -/
def wordParen (l : List Char) : Bool :=
  let p := List.span isWordChar l
  !p.1.isEmpty && (p.2.head? = some '(')

/-- Lines 59 to 73: the single-bare-expression heuristic.  Exactly one
non-blank line; not already starting with the binding name; looks like a
dataset access, a bracketed expression or a call, or is short and free of
assignment. -/
def looks_like_single_expr (code : String) : Bool :=
  match (pyLines (pyStripList code.data)).filter (fun l => !(pyStripList l).isEmpty) with
  | [l0] =>
    let l := pyStripList l0
    if "result".data.isPrefixOf l then false
    else if "df.".data.isPrefixOf l || "df[".data.isPrefixOf l ||
        "(".data.isPrefixOf l || "[".data.isPrefixOf l || wordParen l then true
    else decide (l.length < 400) && !l.contains '='
  | _ => false

/-- Lines 112 to 114: the contract-enforcement stage, wrapping a single
bare expression that nowhere mentions the binding name into an assignment
to it. -/
def contractStage (code : String) : String :=
  if looks_like_single_expr code && !containsStr code "result" then
    "result = " ++ pyStrip code
  else code

/-- A pattern language covering the seven dangerous-pattern regexes of
lines 22 to 25: word boundary, case-insensitive literal, one-or-more
whitespace, zero-or-more whitespace, and sequencing.  In each of the
seven patterns every whitespace quantifier is followed by a literal whose
first character is not whitespace, so maximal munch without backtracking
is exact. -/
inductive RPat where
  | bnd : RPat
  | lit : List Char → RPat
  | ws1 : RPat
  | ws0 : RPat
  | seq : RPat → RPat → RPat
deriving DecidableEq

/-- Matcher for RPat at the head of the input; prev is the character
before the current position, for the boundary assertion.  Returns the
consumed prefix and the rest. -/
def matchR : RPat → Option Char → List Char → Option (List Char × List Char)
  | .bnd, prev, cs =>
    if isWordOpt prev != isWordOpt cs.head? then some ([], cs) else none
  | .lit l, _, cs =>
    if l.isPrefixOf ((cs.take l.length).map Char.toLower) then
      some (cs.take l.length, cs.drop l.length)
    else none
  | .ws1, _, cs =>
    let p := List.span isPySpace cs
    if p.1.isEmpty then none else some p
  | .ws0, _, cs => some (List.span isPySpace cs)
  | .seq p q, prev, cs =>
    match matchR p prev cs with
    | none => none
    | some (a, r1) =>
      match matchR q (match a.getLast? with | some c => some c | none => prev) r1 with
      | none => none
      | some (b, r2) => some (a ++ b, r2)

/-- The comment-prefixed marker of line 82, without the matched text. -/
def MARKER : String := "# [REMOVED_DANGEROUS] "

/-- Decomposition of one re.sub pass: each position either passes one
character through or consumes a (never empty) match.  The scan resumes
right after a match with the match's last character as the new previous
character, exactly as the engine does.  The fuel only serves structural
termination; one above the input length never runs out, since every step
consumes at least one character. -/
def subPiecesF : Nat → RPat → Option Char → List Char → List (Char ⊕ List Char)
  | 0, _, _, _ => []
  | _ + 1, _, _, [] => []
  | fuel + 1, p, prev, c :: t =>
    match matchR p prev (c :: t) with
    | some (pre, rest) =>
      if pre.isEmpty then Sum.inl c :: subPiecesF fuel p (some c) t
      else Sum.inr pre :: subPiecesF fuel p pre.getLast? rest
    | none => Sum.inl c :: subPiecesF fuel p (some c) t

/-- The re.sub decomposition with sufficient fuel. -/
def subPieces (p : RPat) (prev : Option Char) (cs : List Char) : List (Char ⊕ List Char) :=
  subPiecesF (cs.length + 1) p prev cs

/-- Render one piece: a passed-through character, or the marker followed
by the matched text (line 82's replacement). -/
def pieceRender : Char ⊕ List Char → List Char
  | Sum.inl c => [c]
  | Sum.inr m => MARKER.data ++ m

/-- The original text a piece came from. -/
def pieceOrig : Char ⊕ List Char → List Char
  | Sum.inl c => [c]
  | Sum.inr m => m

/-- One re.sub pass over a string for one dangerous pattern. -/
def subR (p : RPat) (s : String) : String :=
  ⟨((subPieces p none s.data).map pieceRender).flatten⟩

/-- DANGEROUS_PATTERNS (lines 22 to 25), in source order. -/
def pImportOs : RPat :=
  .seq .bnd (.seq (.lit "import".data) (.seq .ws1 (.seq (.lit "os".data) .bnd)))

def pImportSys : RPat :=
  .seq .bnd (.seq (.lit "import".data) (.seq .ws1 (.seq (.lit "sys".data) .bnd)))

def pOpenCall : RPat := .seq .bnd (.seq (.lit "open".data) (.seq .ws0 (.lit "(".data)))

def pSubprocess : RPat := .seq .bnd (.seq (.lit "subprocess".data) .bnd)

def pOsSystem : RPat := .seq .bnd (.seq (.lit "os.system".data) .bnd)

def pEvalCall : RPat := .seq .bnd (.seq (.lit "eval".data) (.seq .ws0 (.lit "(".data)))

def pExecCall : RPat := .seq .bnd (.seq (.lit "exec".data) (.seq .ws0 (.lit "(".data)))

def DANGEROUS_PATTERNS : List RPat :=
  [pImportOs, pImportSys, pOpenCall, pSubprocess, pOsSystem, pEvalCall, pExecCall]

/-- Lines 76 to 83: apply the seven substitutions in order, each over the
output of the previous. -/
def sanitize_dangerous (code : String) : String :=
  DANGEROUS_PATTERNS.foldl (fun acc p => subR p acc) code

/-- Outcome of ast.parse, which the pipeline consults but does not
define: success, a SyntaxError, or any other exception.  The pipeline is
parametric in this oracle; every concrete instantiation below is either
irrelevant to the traced run or matches CPython on the strings reached. -/
inductive ParseResult where
  | ok : ParseResult
  | syntaxError : ParseResult
  | otherError : ParseResult
deriving DecidableEq

/-- Line 128: remove every backtick. -/
def removeBackticks (s : String) : String :=
  ⟨s.data.filter (fun c => c ≠ Char.ofNat 96)⟩

/-- Line 129: strip one leading whitespace-tag-whitespace prefix.  The
dot of the original does not cross a newline, so the scan for the closing
angle bracket stops at one; maximal whitespace munch is exact because the
next mandatory character is not whitespace. -/
def stripLeadTag (s : String) : String :=
  match s.data.dropWhile isPySpace with
  | c :: r =>
    if c = '<' then
      match r.drop (r.takeWhile (fun c2 => c2 ≠ '>' && c2 ≠ '\n')).length with
      | d :: r2 => if d = '>' then ⟨r2.dropWhile isPySpace⟩ else s
      | [] => s
    else s
  | [] => s

/-- Join lines with newlines, the inverse of splitting used on line 140. -/
def joinNL : List (List Char) → List Char
  | [] => []
  | [l] => l
  | l :: r => l ++ '\n' :: joinNL r

/-- Lines 119 to 149: validate and repair.  Parse success returns the
snippet; a SyntaxError triggers the backtick-and-tag strip and a reparse;
failing that, the last line, when non-blank, assignment-free and short,
is rewritten into a result binding and reparsed; any remaining failure
returns the sanitized snippet unchanged.  A non-SyntaxError exception is
swallowed and the snippet returned. -/
def lastLineAttempt (code : String) (last : List Char) : String :=
  ⟨joinNL ((pyLines code.data).dropLast ++ ["result = ".data ++ last])⟩

/-- The full validate-and-repair tail: the preceding doc comment
describes the branches; lastLineAttempt above is the line-140 rewrite of
the last line into a result binding. -/
def parseAndRepair (parse : String → ParseResult) (code : String) : String :=
  match parse code with
  | .ok => code
  | .otherError => code
  | .syntaxError =>
    match parse (stripLeadTag (removeBackticks code)) with
    | .ok => stripLeadTag (removeBackticks code)
    | _ =>
      match (pyLines code.data).getLast? with
      | none => code
      | some lastRaw =>
        if !(pyStripList lastRaw).isEmpty && !(pyStripList lastRaw).contains '=' &&
            decide ((pyStripList lastRaw).length < 400) then
          match parse (lastLineAttempt code (pyStripList lastRaw)) with
          | .ok => lastLineAttempt code (pyStripList lastRaw)
          | _ => code
        else code

/-- Lines 86 to 149: fix_invalid_code, parametric in the parse oracle.
The Except layer records the one way the pipeline can raise: a failing
unicode-escape decode inside the JSON code-field stage.  Every other
stage is total. -/
def fix_invalid_code (parse : String → ParseResult) (raw : String) : Except String String :=
  if raw = "" then .ok ""
  else
    match jsonCodeStage (stripLabel (replace_smart (extract_code_block raw))) with
    | .error e => .error e
    | .ok c4 => .ok (parseAndRepair parse (sanitize_dangerous (contractStage c4)))

/-- A parse oracle accepting everything; used where the traced run's
outcome does not depend on the oracle at all. -/
def parseAll : String → ParseResult := fun _ => ParseResult.ok

/-
Helper lemmas about rounding and filtering.
-/

theorem matchR_consumes (p : RPat) :
    ∀ prev cs pre rest, matchR p prev cs = some (pre, rest) → pre ++ rest = cs := by
  induction p with
  | bnd =>
    intro prev cs pre rest h
    simp only [matchR] at h
    split at h
    · injection h with h2
      injection h2 with e1 e2
      rw [← e1, ← e2]
      rfl
    · cases h
  | lit l =>
    intro prev cs pre rest h
    simp only [matchR] at h
    split at h
    · injection h with h2
      injection h2 with e1 e2
      rw [← e1, ← e2]
      exact List.take_append_drop _ _
    · cases h
  | ws1 =>
    intro prev cs pre rest h
    simp only [matchR, List.span_eq_take_drop] at h
    split at h
    · cases h
    · injection h with h2
      injection h2 with e1 e2
      rw [← e1, ← e2]
      exact List.takeWhile_append_dropWhile _ _
  | ws0 =>
    intro prev cs pre rest h
    simp only [matchR, List.span_eq_take_drop] at h
    injection h with h2
    injection h2 with e1 e2
    rw [← e1, ← e2]
    exact List.takeWhile_append_dropWhile _ _
  | seq p q ihp ihq =>
    intro prev cs pre rest h
    simp only [matchR] at h
    cases hp : matchR p prev cs with
    | none => rw [hp] at h; cases h
    | some ar =>
      obtain ⟨a, r1⟩ := ar
      rw [hp] at h
      dsimp only at h
      cases hq : matchR q (match a.getLast? with | some c => some c | none => prev) r1 with
      | none =>
        rw [hq] at h
        cases h
      | some br =>
        obtain ⟨b, r2⟩ := br
        rw [hq] at h
        injection h with h2
        injection h2 with e1 e2
        have h1 := ihp prev cs a r1 hp
        have h2 := ihq _ r1 b r2 hq
        rw [← e1, ← e2, List.append_assoc, h2, h1]



theorem halfEven_nonneg {q : ℚ} (h : 0 ≤ q) : 0 ≤ halfEven q := by
  have hf : 0 ≤ ⌊q⌋ := Int.floor_nonneg.mpr h
  unfold halfEven
  split
  · exact hf
  · split
    · omega
    · split <;> omega

theorem halfEven_le {q : ℚ} {n : ℤ} (h : q ≤ (n : ℚ)) : halfEven q ≤ n := by
  have hf : ⌊q⌋ ≤ n := by
    have := Int.floor_le_floor h
    simpa using this
  have hfq : (⌊q⌋ : ℚ) ≤ q := Int.floor_le q
  unfold halfEven
  split
  · exact hf
  · rename_i h1
    push_neg at h1
    split
    · rename_i h2
      have hlt : (⌊q⌋ : ℚ) < (n : ℚ) - 1/2 := by linarith
      have : ⌊q⌋ < n := by
        by_contra hc
        push_neg at hc
        have : (n : ℚ) ≤ (⌊q⌋ : ℚ) := by exact_mod_cast hc
        linarith
      omega
    · rename_i h2
      push_neg at h2
      have heq : q - (⌊q⌋ : ℚ) = 1/2 := le_antisymm h2 h1
      have hlt : (⌊q⌋ : ℚ) < (n : ℚ) := by linarith
      have : ⌊q⌋ < n := by exact_mod_cast hlt
      split <;> omega

theorem halfEven_intCast (n : ℤ) : halfEven (n : ℚ) = n := by
  unfold halfEven
  rw [Int.floor_intCast]
  have : (n : ℚ) - (n : ℚ) = 0 := by ring
  rw [this]
  norm_num

theorem pyRound2_nonneg {q : ℚ} (h : 0 ≤ q) : 0 ≤ pyRound2 q := by
  unfold pyRound2
  have h1 : 0 ≤ halfEven (100 * q) := halfEven_nonneg (by linarith)
  have h2 : (0 : ℚ) ≤ (halfEven (100 * q) : ℚ) := by exact_mod_cast h1
  positivity

theorem pyRound2_le_one {q : ℚ} (h : q ≤ 1) : pyRound2 q ≤ 1 := by
  unfold pyRound2
  have h1 : halfEven (100 * q) ≤ (100 : ℤ) := by
    apply halfEven_le
    push_cast
    linarith
  rw [div_le_one (by norm_num)]
  exact_mod_cast h1

theorem pyRound2_idem (q : ℚ) : pyRound2 (pyRound2 q) = pyRound2 q := by
  unfold pyRound2
  have h1 : (100 : ℚ) * ((halfEven (100 * q) : ℚ) / 100) = (halfEven (100 * q) : ℚ) := by
    field_simp
  rw [h1, halfEven_intCast]

theorem bool_and_elim {a b : Bool} (h : (a && b) = true) : a = true ∧ b = true := by
  cases a <;> cases b <;> simp_all

theorem bool_and_intro {a b : Bool} (ha : a = true) (hb : b = true) : (a && b) = true := by
  rw [ha, hb]
  rfl

theorem length_filter_add {α : Type} (p : α → Bool) (l : List α) :
    (l.filter p).length + (l.filter (fun a => ! p a)).length = l.length := by
  induction l with
  | nil => rfl
  | cons a t ih =>
    by_cases h : p a <;> simp [List.filter_cons, h] <;> omega

theorem simple_trust_raw_bounds (llm : Narrative) (evidence : List Row) :
    0 ≤ (compute_simple_faithfulness llm evidence).trust ∧
      (compute_simple_faithfulness llm evidence).trust ≤ 1 := by
  simp only [compute_simple_faithfulness]
  set ips := dedupFirst (findAllIPs (narrativeText llm)) with hips
  set v := (ips.filter (fun ip => evidence.any (ipMatchesRow ip))).length with hv
  have hvle : v ≤ ips.length := by
    rw [hv]
    exact List.length_filter_le _ _
  by_cases he : ips.isEmpty
  · simp only [he, if_true]
    constructor
    · exact pyRound2_nonneg (by norm_num)
    · exact pyRound2_le_one (by norm_num)
  · simp only [he, if_false]
    have hne : ips ≠ [] := by
      simpa [List.isEmpty_iff] using he
    have hlen : 0 < ips.length := List.length_pos.mpr hne
    have hraw0 : (0 : ℚ) ≤ (v : ℚ) / (ips.length : ℚ) := by positivity
    have hraw1 : (v : ℚ) / (ips.length : ℚ) ≤ 1 := by
      rw [div_le_one (by exact_mod_cast hlen)]
      exact_mod_cast hvle
    exact ⟨pyRound2_nonneg hraw0, pyRound2_le_one hraw1⟩

/-- C1: the detailed trust score starts from the address-check trust; with
at least one parsed claim it subtracts half of the unsupported fraction,
floors at zero and rounds to two decimals; with zero parsed claims it
equals the address-check trust (faithfulness.py lines 222 to 227). -/
theorem C1_trust_score_formula (llm : Narrative) (evidence : List Row) (tol : ℚ) :
    ((compute_detailed_faithfulness llm evidence tol).claims_parsed ≠ [] →
      (compute_detailed_faithfulness llm evidence tol).trust_score =
        pyRound2 (max 0 ((compute_detailed_faithfulness llm evidence tol).ip_check.trust -
          (((compute_detailed_faithfulness llm evidence tol).unsupported_claims.length : ℚ) /
              ((compute_detailed_faithfulness llm evidence tol).claims_parsed.length : ℚ)) *
            (1/2)))) ∧
    ((compute_detailed_faithfulness llm evidence tol).claims_parsed = [] →
      (compute_detailed_faithfulness llm evidence tol).trust_score =
        (compute_detailed_faithfulness llm evidence tol).ip_check.trust) := by
  simp only [compute_detailed_faithfulness]
  constructor
  · intro h
    have he : (parseClaims (narrativeText llm)).isEmpty = false := by
      cases hp : parseClaims (narrativeText llm) with
      | nil => rw [hp] at h; simp at h
      | cons a t => rfl
    simp only [he, Bool.false_eq_true, if_false]
  · intro h
    have he : (parseClaims (narrativeText llm)).isEmpty = true := by
      rw [h]; rfl
    simp only [he, if_true]
    simp only [compute_simple_faithfulness]
    exact pyRound2_idem _

/-- C1 witness: the formula instantiated at a narrative with one parsed
claim and at a narrative with none. -/
theorem C1_trust_score_formula_witness :
    ((compute_detailed_faithfulness ⟨"There are 2 flows", []⟩ [] defaultTol).trust_score =
      pyRound2 (max 0
        ((compute_detailed_faithfulness ⟨"There are 2 flows", []⟩ [] defaultTol).ip_check.trust -
          (((compute_detailed_faithfulness ⟨"There are 2 flows", []⟩ []
                defaultTol).unsupported_claims.length : ℚ) /
              ((compute_detailed_faithfulness ⟨"There are 2 flows", []⟩ []
                defaultTol).claims_parsed.length : ℚ)) * (1/2)))) ∧
    ((compute_detailed_faithfulness ⟨"", []⟩ [] defaultTol).trust_score =
      (compute_detailed_faithfulness ⟨"", []⟩ [] defaultTol).ip_check.trust) :=
  ⟨(C1_trust_score_formula ⟨"There are 2 flows", []⟩ [] defaultTol).1 (by decide),
   (C1_trust_score_formula ⟨"", []⟩ [] defaultTol).2 (by decide)⟩

/-- C2: for every narrative, evidence list and tolerance, the detailed
report's trust score and the simple check's trust both lie in the closed
interval from zero to one. -/
theorem C2_trust_bounds :
    (∀ (llm : Narrative) (evidence : List Row) (tol : ℚ),
      0 ≤ (compute_detailed_faithfulness llm evidence tol).trust_score ∧
        (compute_detailed_faithfulness llm evidence tol).trust_score ≤ 1) ∧
    (∀ (llm : Narrative) (evidence : List Row),
      0 ≤ (compute_simple_faithfulness llm evidence).trust ∧
        (compute_simple_faithfulness llm evidence).trust ≤ 1) := by
  constructor
  · intro llm evidence tol
    have hs := simple_trust_raw_bounds llm evidence
    simp only [compute_detailed_faithfulness]
    by_cases he : (parseClaims (narrativeText llm)).isEmpty
    · simp only [he, if_true]
      exact ⟨pyRound2_nonneg hs.1, pyRound2_le_one hs.2⟩
    · simp only [he, Bool.false_eq_true, if_false]
      set u := ((parseClaims (narrativeText llm)).filter
        (fun c => ! okClaim (narrativeText llm) (computeAggs evidence) tol c)).length
      set n := (parseClaims (narrativeText llm)).length
      have hpen : (0 : ℚ) ≤ ((u : ℚ) / (n : ℚ)) * (1/2) := by positivity
      constructor
      · exact pyRound2_nonneg (le_max_left 0 _)
      · apply pyRound2_le_one
        apply max_le (by norm_num)
        linarith [hs.2]
  · intro llm evidence
    exact simple_trust_raw_bounds llm evidence

/-- C9: supported_claims and unsupported_claims partition claims_parsed:
every parsed claim lies in exactly one of the two lists, and their lengths
sum to the number of parsed claims (loop of lines 161 to 213). -/
theorem C9_partition (llm : Narrative) (evidence : List Row) (tol : ℚ) :
    (∀ c ∈ (compute_detailed_faithfulness llm evidence tol).claims_parsed,
      (c ∈ (compute_detailed_faithfulness llm evidence tol).supported_claims ∧
        c ∉ (compute_detailed_faithfulness llm evidence tol).unsupported_claims) ∨
      (c ∈ (compute_detailed_faithfulness llm evidence tol).unsupported_claims ∧
        c ∉ (compute_detailed_faithfulness llm evidence tol).supported_claims)) ∧
    (compute_detailed_faithfulness llm evidence tol).supported_claims.length +
        (compute_detailed_faithfulness llm evidence tol).unsupported_claims.length =
      (compute_detailed_faithfulness llm evidence tol).claims_parsed.length := by
  simp only [compute_detailed_faithfulness]
  constructor
  · intro c hc
    by_cases h : okClaim (narrativeText llm) (computeAggs evidence) tol c
    · left
      constructor
      · exact List.mem_filter.mpr ⟨hc, h⟩
      · intro hmem
        have := (List.mem_filter.mp hmem).2
        simp [h] at this
    · right
      constructor
      · refine List.mem_filter.mpr ⟨hc, ?_⟩
        simp [h]
      · intro hmem
        have := (List.mem_filter.mp hmem).2
        simp [h] at this
  · exact length_filter_add _ _

/-- C9 witness: the partition at a concrete report holding one claim. -/
theorem C9_partition_witness :
    ((Claim.number "2" 2 ∈
        (compute_detailed_faithfulness ⟨"There are 2 flows", []⟩ [] defaultTol).supported_claims ∧
      Claim.number "2" 2 ∉
        (compute_detailed_faithfulness ⟨"There are 2 flows", []⟩ [] defaultTol).unsupported_claims) ∨
     (Claim.number "2" 2 ∈
        (compute_detailed_faithfulness ⟨"There are 2 flows", []⟩ [] defaultTol).unsupported_claims ∧
      Claim.number "2" 2 ∉
        (compute_detailed_faithfulness ⟨"There are 2 flows", []⟩ [] defaultTol).supported_claims)) :=
  (C9_partition ⟨"There are 2 flows", []⟩ [] defaultTol).1 (Claim.number "2" 2) (by decide)

/-- C10: every fraction claim in a report stores the ratio numerator over
max 1 denominator, whose divisor is positive even for a claimed
denominator of zero (line 145). -/
theorem C10_fraction_value (llm : Narrative) (evidence : List Row) (tol : ℚ)
    (t : String) (n d v : ℚ)
    (h : Claim.fraction t n d v ∈
      (compute_detailed_faithfulness llm evidence tol).claims_parsed) :
    v = n / max 1 d ∧ (0 : ℚ) < max 1 d := by
  refine ⟨?_, lt_of_lt_of_le one_pos (le_max_left 1 d)⟩
  simp only [compute_detailed_faithfulness, parseClaims] at h
  rcases List.mem_append.mp h with h1 | h2
  · rcases List.mem_append.mp h1 with ha | hb
    · rcases List.mem_map.mp ha with ⟨l, _, heq⟩
      cases heq
    · rcases List.mem_map.mp hb with ⟨g, _, heq⟩
      injection heq with e1 e2 e3 e4
      rw [← e4, ← e2, ← e3]
  · rcases List.mem_filterMap.mp h2 with ⟨l, _, heq⟩
    by_cases hs : l.length ≤ 3 && l.all Char.isDigit &&
        containsSeq (l ++ ['.']) (narrativeText llm).data
    · rw [if_pos hs] at heq
      cases heq
    · rw [if_neg hs] at heq
      cases heq

/-- C10 witness: the stored ratio of the fraction claim parsed from a
concrete narrative. -/
theorem C10_fraction_value_witness :
    (3 : ℚ) / 7 = 3 / max 1 7 ∧ (0 : ℚ) < max 1 (7 : ℚ) :=
  C10_fraction_value ⟨"3 of 7 rows", []⟩ [] defaultTol "3 of 7" 3 7 (3/7) (by decide)

/-- C3 counterexample: the narrative mentions both suspicious and bytes,
the evidence provides both a suspicious-row percentage (zero) and a total
byte count, and the parsed percent claim of ninety misses the tolerance;
the claim as stated would mark it supported through the bytes mention, but
the source's elif never reaches the bytes alternative and files it as
unsupported. -/
theorem C3_counterexample :
    Claim.percent "90%" 90 ∈
      (compute_detailed_faithfulness ⟨"suspicious bytes 90%x", []⟩
        [⟨none, none, some "normal", some 1⟩] defaultTol).unsupported_claims ∧
    containsStr (lowerStr (narrativeText ⟨"suspicious bytes 90%x", []⟩)) "bytes" = true ∧
    (computeAggs [⟨none, none, some "normal", some 1⟩]).total_bytes.isSome = true ∧
    Claim.percent "90%" 90 ∉
      (compute_detailed_faithfulness ⟨"suspicious bytes 90%x", []⟩
        [⟨none, none, some "normal", some 1⟩] defaultTol).supported_claims := by
  decide

/-- C3 amended: a parsed percent claim is supported exactly when either
the text mentions suspicious, the suspicious-row and row counts are
available and nonzero, and the true suspicious percentage is within
tolerance of the claimed value; or those availability-and-mention
conditions do not all hold, the text mentions bytes, and a total-bytes
aggregate exists.  When the suspicious conditions hold but the tolerance
check fails, the bytes alternative is never consulted. -/
theorem C3_percent_support (llm : Narrative) (evidence : List Row) (tol : ℚ)
    (t : String) (v : ℚ)
    (h : Claim.percent t v ∈
      (compute_detailed_faithfulness llm evidence tol).claims_parsed) :
    (Claim.percent t v ∈
        (compute_detailed_faithfulness llm evidence tol).supported_claims ↔
      ((containsStr (lowerStr (narrativeText llm)) "suspicious" = true ∧
        (computeAggs evidence).n_rows ≠ 0 ∧
        ∃ s, (computeAggs evidence).suspicious_rows = some s ∧
          |100 * (s : ℚ) / max 1 ((computeAggs evidence).n_rows : ℚ) - v| ≤
            max 1 (100 * (s : ℚ) / max 1 ((computeAggs evidence).n_rows : ℚ) * tol)) ∨
       (¬(containsStr (lowerStr (narrativeText llm)) "suspicious" = true ∧
          (computeAggs evidence).suspicious_rows.isSome = true ∧
          (computeAggs evidence).n_rows ≠ 0) ∧
        containsStr (lowerStr (narrativeText llm)) "bytes" = true ∧
        (computeAggs evidence).total_bytes.isSome = true))) := by
  have hmem : (Claim.percent t v ∈
      (compute_detailed_faithfulness llm evidence tol).supported_claims ↔
      okClaim (narrativeText llm) (computeAggs evidence) tol (Claim.percent t v) = true) := by
    simp only [compute_detailed_faithfulness] at h ⊢
    rw [List.mem_filter]
    simp only [h, true_and]
  rw [hmem]
  show (if (containsStr (lowerStr (narrativeText llm)) "suspicious" &&
        (computeAggs evidence).suspicious_rows.isSome &&
        decide ((computeAggs evidence).n_rows ≠ 0)) = true then
      match (computeAggs evidence).suspicious_rows with
      | some s =>
        decide (|100 * (s : ℚ) / max 1 ((computeAggs evidence).n_rows : ℚ) - v| ≤
          max 1 (100 * (s : ℚ) / max 1 ((computeAggs evidence).n_rows : ℚ) * tol))
      | none => false
    else containsStr (lowerStr (narrativeText llm)) "bytes" &&
      (computeAggs evidence).total_bytes.isSome) = true ↔ _
  cases hcond : (containsStr (lowerStr (narrativeText llm)) "suspicious" &&
      (computeAggs evidence).suspicious_rows.isSome &&
      decide ((computeAggs evidence).n_rows ≠ 0)) with
  | true =>
    rw [if_pos rfl]
    obtain ⟨hab, hc⟩ := bool_and_elim hcond
    obtain ⟨ha, hb⟩ := bool_and_elim hab
    obtain ⟨s, hs⟩ := Option.isSome_iff_exists.mp hb
    have hn : (computeAggs evidence).n_rows ≠ 0 := of_decide_eq_true hc
    rw [hs]
    constructor
    · intro hok
      exact Or.inl ⟨ha, hn, s, rfl, of_decide_eq_true hok⟩
    · rintro (⟨-, -, s2, hs2, htol⟩ | ⟨hneg, -, -⟩)
      · injection hs2 with e
        subst e
        exact decide_eq_true htol
      · exact absurd ⟨ha, rfl, hn⟩ hneg
  | false =>
    have hnc : ¬ ((containsStr (lowerStr (narrativeText llm)) "suspicious" &&
        (computeAggs evidence).suspicious_rows.isSome &&
        decide ((computeAggs evidence).n_rows ≠ 0)) = true) := by
      rw [hcond]
      exact Bool.false_ne_true
    rw [if_neg Bool.false_ne_true]
    constructor
    · intro hok
      obtain ⟨hby, htb⟩ := bool_and_elim hok
      refine Or.inr ⟨?_, hby, htb⟩
      rintro ⟨ha, hb, hn⟩
      apply hnc
      exact bool_and_intro (bool_and_intro ha hb) (decide_eq_true hn)
    · rintro (⟨ha, hn, s, hs, -⟩ | ⟨-, hby, htb⟩)
      · apply absurd hnc
        intro hcontr
        apply hcontr
        refine bool_and_intro (bool_and_intro ha ?_) (decide_eq_true hn)
        rw [hs]
        rfl
      · exact bool_and_intro hby htb

/-- C3 amended witness: a percent claim within tolerance of the suspicious
percentage is supported, at a concrete narrative and evidence row. -/
theorem C3_percent_support_witness :
    Claim.percent "0%" 0 ∈
      (compute_detailed_faithfulness ⟨"suspicious 0%x", []⟩
        [⟨none, none, some "normal", some 1⟩] defaultTol).supported_claims :=
  (C3_percent_support ⟨"suspicious 0%x", []⟩ [⟨none, none, some "normal", some 1⟩]
      defaultTol "0%" 0 (by decide)).mpr
    (Or.inl ⟨by decide, by decide, 0, by decide, by decide⟩)


/-
Neutralization lemmas for C8.
-/

theorem subPiecesF_orig (p : RPat) :
    ∀ fuel cs prev, cs.length < fuel →
      ((subPiecesF fuel p prev cs).map pieceOrig).flatten = cs := by
  intro fuel
  induction fuel with
  | zero => intro cs prev h; omega
  | succ fuel ih =>
    intro cs prev h
    cases cs with
    | nil => rfl
    | cons c t =>
      simp only [subPiecesF]
      cases hm : matchR p prev (c :: t) with
      | none =>
        simp only [List.map_cons, List.flatten_cons, pieceOrig]
        rw [ih t (some c) (by simp at h; omega)]
        rfl
      | some pr =>
        obtain ⟨pre, rest⟩ := pr
        have hc := matchR_consumes p prev (c :: t) pre rest hm
        by_cases hp : pre.isEmpty
        · simp only [hp, if_true, List.map_cons, List.flatten_cons, pieceOrig]
          rw [ih t (some c) (by simp at h; omega)]
          rfl
        · simp only [hp, Bool.false_eq_true, if_false, List.map_cons, List.flatten_cons,
            pieceOrig]
          have hpre : pre ≠ [] := by
            intro hh
            rw [hh] at hp
            exact hp rfl
          have hlen : pre.length + rest.length = t.length + 1 := by
            rw [← List.length_append, hc]
            rfl
          have hplen : 0 < pre.length := List.length_pos.mpr hpre
          rw [ih rest pre.getLast? (by simp at h; omega)]
          exact hc

theorem subPiecesF_inr_ne_nil (p : RPat) :
    ∀ fuel cs prev m, Sum.inr m ∈ subPiecesF fuel p prev cs → m ≠ [] := by
  intro fuel
  induction fuel with
  | zero => intro cs prev m h; cases h
  | succ fuel ih =>
    intro cs prev m h
    cases cs with
    | nil => cases h
    | cons c t =>
      simp only [subPiecesF] at h
      cases hm : matchR p prev (c :: t) with
      | none =>
        rw [hm] at h
        rcases List.mem_cons.mp h with h1 | h2
        · cases h1
        · exact ih t (some c) m h2
      | some pr =>
        obtain ⟨pre, rest⟩ := pr
        rw [hm] at h
        dsimp only at h
        by_cases hp : pre.isEmpty
        · rw [if_pos hp] at h
          rcases List.mem_cons.mp h with h1 | h2
          · cases h1
          · exact ih t (some c) m h2
        · rw [if_neg hp] at h
          rcases List.mem_cons.mp h with h1 | h2
          · injection h1 with e
            rw [e]
            intro hh
            rw [hh] at hp
            exact hp rfl
          · exact ih rest pre.getLast? m h2

theorem renderOrig_count (pieces : List (Char ⊕ List Char)) :
    ((pieces.map pieceRender).flatten).count '\n' =
      ((pieces.map pieceOrig).flatten).count '\n' := by
  induction pieces with
  | nil => rfl
  | cons x t ih =>
    simp only [List.map_cons, List.flatten_cons, List.count_append, ih]
    cases x with
    | inl c => rfl
    | inr m =>
      simp only [pieceRender, pieceOrig, List.count_append]
      have : (MARKER.data).count '\n' = 0 := by decide
      omega

theorem render_ne_nil (x : Char ⊕ List Char) : pieceRender x ≠ [] := by
  cases x with
  | inl c => simp [pieceRender]
  | inr m => simp [pieceRender, MARKER]

theorem flatten_render_eq_nil_iff (pieces : List (Char ⊕ List Char)) :
    ((pieces.map pieceRender).flatten = []) ↔ pieces = [] := by
  cases pieces with
  | nil => simp
  | cons x t =>
    simp only [List.map_cons, List.flatten_cons]
    constructor
    · intro h
      exact absurd (List.append_eq_nil.mp h).1 (render_ne_nil x)
    · intro h
      cases h

theorem flatten_orig_eq_nil_iff (pieces : List (Char ⊕ List Char))
    (hne : ∀ m, Sum.inr m ∈ pieces → m ≠ []) :
    ((pieces.map pieceOrig).flatten = []) ↔ pieces = [] := by
  cases pieces with
  | nil => simp
  | cons x t =>
    simp only [List.map_cons, List.flatten_cons]
    constructor
    · intro h
      have h1 := (List.append_eq_nil.mp h).1
      cases x with
      | inl c => cases h1
      | inr m => exact absurd h1 (hne m (List.mem_cons_self _ _))
    · intro h
      cases h

theorem renderOrig_getLast (pieces : List (Char ⊕ List Char))
    (hne : ∀ m, Sum.inr m ∈ pieces → m ≠ []) :
    ((pieces.map pieceRender).flatten).getLast? =
      ((pieces.map pieceOrig).flatten).getLast? := by
  induction pieces with
  | nil => rfl
  | cons x t ih =>
    simp only [List.map_cons, List.flatten_cons]
    by_cases ht : t = []
    · subst ht
      simp only [List.map_nil, List.flatten_nil, List.append_nil]
      cases x with
      | inl c => rfl
      | inr m =>
        simp only [pieceRender, pieceOrig]
        exact List.getLast?_append_of_ne_nil _ (hne m (List.mem_cons_self _ _))
    · have htn : ∀ m, Sum.inr m ∈ t → m ≠ [] := fun m hm =>
        hne m (List.mem_cons_of_mem _ hm)
      have h1 : (t.map pieceRender).flatten ≠ [] := by
        intro hh
        exact ht ((flatten_render_eq_nil_iff t).mp hh)
      have h2 : (t.map pieceOrig).flatten ≠ [] := by
        intro hh
        exact ht ((flatten_orig_eq_nil_iff t htn).mp hh)
      rw [List.getLast?_append_of_ne_nil _ h1, List.getLast?_append_of_ne_nil _ h2]
      exact ih htn

theorem subR_count (p : RPat) (s : String) :
    (subR p s).data.count '\n' = s.data.count '\n' := by
  show ((subPieces p none s.data).map pieceRender).flatten.count '\n' = _
  rw [renderOrig_count]
  rw [show subPieces p none s.data = subPiecesF (s.data.length + 1) p none s.data from rfl]
  rw [subPiecesF_orig p (s.data.length + 1) s.data none (by omega)]

theorem subR_getLast (p : RPat) (s : String) :
    (subR p s).data.getLast? = s.data.getLast? := by
  show ((subPieces p none s.data).map pieceRender).flatten.getLast? = _
  have hne : ∀ m, Sum.inr m ∈ subPieces p none s.data → m ≠ [] := fun m hm =>
    subPiecesF_inr_ne_nil p (s.data.length + 1) s.data none m hm
  rw [renderOrig_getLast _ hne]
  rw [show subPieces p none s.data = subPiecesF (s.data.length + 1) p none s.data from rfl]
  rw [subPiecesF_orig p (s.data.length + 1) s.data none (by omega)]

theorem subR_eq_nil_iff (p : RPat) (s : String) :
    (subR p s).data = [] ↔ s.data = [] := by
  show ((subPieces p none s.data).map pieceRender).flatten = [] ↔ _
  rw [flatten_render_eq_nil_iff]
  constructor
  · intro h
    have := subPiecesF_orig p (s.data.length + 1) s.data none (by omega)
    rw [show subPiecesF (s.data.length + 1) p none s.data = subPieces p none s.data from rfl,
      h] at this
    exact this.symm
  · intro h
    show subPiecesF (s.data.length + 1) p none s.data = []
    rw [h]
    rfl

theorem splitNLCore_ne_nil (cs : List Char) : splitNLCore cs ≠ [] := by
  cases cs with
  | nil => simp [splitNLCore]
  | cons c t =>
    by_cases hc : c = '\n'
    · subst hc
      cases t <;> simp [splitNLCore]
    · simp only [splitNLCore, if_neg hc]
      split <;> simp

theorem splitNLCore_length (cs : List Char) :
    (splitNLCore cs).length =
      cs.count '\n' + (if cs.getLast? = some '\n' then 0 else 1) := by
  induction cs with
  | nil => simp [splitNLCore]
  | cons c t ih =>
    by_cases hc : c = '\n'
    · subst hc
      cases t with
      | nil => simp [splitNLCore]
      | cons d r =>
        rw [show splitNLCore ('\n' :: d :: r) = [] :: splitNLCore (d :: r) from by
          simp [splitNLCore]]
        simp only [List.length_cons, ih, List.count_cons]
        rw [List.getLast?_cons_cons]
        simp only [beq_self_eq_true, if_true]
        ring
    · simp only [splitNLCore, if_neg hc]
      cases hsp : splitNLCore t with
      | nil => exact absurd hsp (splitNLCore_ne_nil t)
      | cons h r =>
        cases t with
        | nil =>
          have he : splitNLCore ([] : List Char) = [[]] := rfl
          rw [he] at hsp
          injection hsp with e1 e2
          subst e1
          subst e2
          simp [List.count_cons, hc]
        | cons d u =>
          have h2 := ih
          rw [hsp] at h2
          simp only [List.length_cons] at h2 ⊢
          have hcnt : (c :: d :: u).count '\n' = (d :: u).count '\n' := by
            simp [List.count_cons, hc]
          rw [hcnt, List.getLast?_cons_cons]
          exact h2

theorem pyLines_length (cs : List Char) :
    (pyLines cs).length =
      cs.count '\n' + (if cs = [] ∨ cs.getLast? = some '\n' then 0 else 1) := by
  cases cs with
  | nil => simp [pyLines]
  | cons c t =>
    have hne : (c :: t) ≠ ([] : List Char) := by simp
    rw [show pyLines (c :: t) = splitNLCore (c :: t) from rfl, splitNLCore_length]
    simp [hne]

theorem sanitize_fold_pres (ps : List RPat) :
    ∀ s : String,
      (ps.foldl (fun acc p => subR p acc) s).data.count '\n' = s.data.count '\n' ∧
      (ps.foldl (fun acc p => subR p acc) s).data.getLast? = s.data.getLast? ∧
      ((ps.foldl (fun acc p => subR p acc) s).data = [] ↔ s.data = []) := by
  induction ps with
  | nil => intro s; exact ⟨rfl, rfl, Iff.rfl⟩
  | cons p t ih =>
    intro s
    have hstep := ih (subR p s)
    simp only [List.foldl_cons]
    refine ⟨?_, ?_, ?_⟩
    · rw [hstep.1, subR_count]
    · rw [hstep.2.1, subR_getLast]
    · rw [hstep.2.2, subR_eq_nil_iff]

/-- C8: for every snippet, the danger-neutralization stage preserves the
total line count; and for each of the seven dangerous patterns every
re.sub match consumes exactly its matched text, which the replacement,
the comment marker followed by that very text, keeps in place rather
than deleting (code_fixer_agent.py lines 76 to 83). -/
theorem C8_neutralization (code : String) :
    (pyLines (sanitize_dangerous code).data).length = (pyLines code.data).length ∧
    (∀ p, p ∈ DANGEROUS_PATTERNS → ∀ prev cs,
      ((subPieces p prev cs).map pieceOrig).flatten = cs) ∧
    (∀ p prev cs m, Sum.inr m ∈ subPieces p prev cs →
      pieceRender (Sum.inr m) = MARKER.data ++ m ∧ m ≠ []) := by
  refine ⟨?_, ?_, ?_⟩
  · have hp := sanitize_fold_pres DANGEROUS_PATTERNS code
    rw [pyLines_length, pyLines_length]
    rw [show sanitize_dangerous code =
      DANGEROUS_PATTERNS.foldl (fun acc p => subR p acc) code from rfl]
    simp only [hp.1, hp.2.1, hp.2.2]
  · intro p _ prev cs
    exact subPiecesF_orig p (cs.length + 1) cs prev (by omega)
  · intro p prev cs m hm
    exact ⟨rfl, subPiecesF_inr_ne_nil p (cs.length + 1) cs prev m hm⟩

/-- C8 witness: line-count preservation on a three-line snippet whose
middle line is neutralized, and match preservation for the import-os
pattern on its exact match. -/
theorem C8_neutralization_witness :
    (pyLines (sanitize_dangerous "x = 1\nimport os\ny = 2").data).length =
      (pyLines "x = 1\nimport os\ny = 2".data).length ∧
    ((subPieces pImportOs none "import os".data).map pieceOrig).flatten =
      "import os".data ∧
    (pieceRender (Sum.inr "import os".data) = MARKER.data ++ "import os".data ∧
      "import os".data ≠ []) :=
  ⟨(C8_neutralization "x = 1\nimport os\ny = 2").1,
   (C8_neutralization "x = 1\nimport os\ny = 2").2.1 pImportOs (by decide) none
     "import os".data,
   (C8_neutralization "x = 1\nimport os\ny = 2").2.2 pImportOs none "import os".data
     "import os".data (by
       rw [show subPieces pImportOs none "import os".data =
         [Sum.inr "import os".data] from rfl]
       exact List.mem_cons_self _ _)⟩

/-
C4 to C7: the pipeline theorems.
-/

/-- C4 counterexample: a JSON envelope whose code field holds a truncated
hex escape makes the unicode-escape decode of line 109 raise out of
fix_invalid_code; no stage-skipping recovery exists.  The raw text is
an open brace, the quoted key code, a colon, the quoted value backslash-x,
and a closing brace, and the outcome does not consult the parse oracle. -/
theorem C4_counterexample :
    fix_invalid_code parseAll "\x7b\"code\": \"\\x\"\x7d" =
      Except.error "truncated hex escape" := rfl

/-- C4 amended: fix_invalid_code returns a string exactly when the JSON
code-field unescape stage does not fail (in particular always when no
code envelope is matched); a failing unescape propagates out of the
pipeline, for every parse oracle.  The empty input returns the empty
string. -/
theorem C4_no_raise (parse : String → ParseResult) (raw : String) (h : raw ≠ "") :
    (fix_invalid_code parse raw).isOk =
      (jsonCodeStage (stripLabel (replace_smart (extract_code_block raw)))).isOk := by
  unfold fix_invalid_code
  rw [if_neg h]
  cases hj : jsonCodeStage (stripLabel (replace_smart (extract_code_block raw))) with
  | error e => rfl
  | ok c => rfl

/-- C4 witness: the equivalence instantiated at a plain snippet. -/
theorem C4_no_raise_witness :
    (fix_invalid_code parseAll "x").isOk =
      (jsonCodeStage (stripLabel (replace_smart (extract_code_block "x")))).isOk :=
  C4_no_raise parseAll "x" (by decide)

theorem dropWhile_mem {c : Char} :
    ∀ cs : List Char, c ∈ cs → isPySpace c = false → c ∈ cs.dropWhile isPySpace := by
  intro cs
  induction cs with
  | nil => intro h; cases h
  | cons a t ih =>
    intro h hns
    by_cases ha : isPySpace a
    · rw [List.dropWhile_cons_of_pos ha]
      rcases List.mem_cons.mp h with h1 | h2
      · rw [h1] at hns
        rw [hns] at ha
        cases ha
      · exact ih h2 hns
    · rw [List.dropWhile_cons_of_neg ha]
      exact h

theorem mem_pyStripList {c : Char} (cs : List Char) (h : c ∈ cs)
    (hns : isPySpace c = false) : c ∈ pyStripList cs := by
  unfold pyStripList
  rw [List.mem_reverse]
  apply dropWhile_mem _ _ hns
  rw [List.mem_reverse]
  exact dropWhile_mem _ h hns

theorem splitNLCore_no_nl : ∀ cs : List Char, '\n' ∉ cs → splitNLCore cs = [cs] := by
  intro cs
  induction cs with
  | nil => intro h; rfl
  | cons c t ih =>
    intro h
    have hc : c ≠ '\n' := fun hh => h (hh ▸ List.mem_cons_self c t)
    have ht : '\n' ∉ t := fun hh => h (List.mem_cons_of_mem c hh)
    simp only [splitNLCore, if_neg hc, ih ht]

theorem pyLines_single (cs : List Char) (hne : cs ≠ []) (hnl : '\n' ∉ cs) :
    pyLines cs = [cs] := by
  cases cs with
  | nil => exact absurd rfl hne
  | cons c t => exact splitNLCore_no_nl (c :: t) hnl

/-- The repair tail of lines 119 to 149 leaves a snippet alone, whatever
the oracle answers, when the snippet contains no backtick, starts with a
non-space non-tag character, spans one line and contains an assignment:
the strip steps are identities, and the last-line rewrite is refused by
the assignment test. -/
theorem parseAndRepair_fixed (parse : String → ParseResult) (w : String)
    (hbt : Char.ofNat 96 ∉ w.data)
    (hhead : w.data.head? = some 'r')
    (hnl : '\n' ∉ w.data)
    (heq : '=' ∈ w.data) :
    parseAndRepair parse w = w := by
  have hwne : w.data ≠ [] := by
    intro hh
    rw [hh] at hhead
    cases hhead
  have hrb : removeBackticks w = w := by
    unfold removeBackticks
    have : w.data.filter (fun c => c ≠ Char.ofNat 96) = w.data :=
      List.filter_eq_self.mpr (fun a ha => by
        simp only [ne_eq, decide_eq_true_eq]
        intro hh
        rw [hh] at ha
        exact hbt ha)
    rw [this]
  have htag : stripLeadTag w = w := by
    unfold stripLeadTag
    cases hw : w.data with
    | nil => exact absurd hw hwne
    | cons a t =>
      rw [hw] at hhead
      injection hhead with ha
      subst ha
      have hd : List.dropWhile isPySpace ('r' :: t) = 'r' :: t :=
        List.dropWhile_cons_of_neg (by decide)
      rw [hd]
      dsimp only
      rw [if_neg (by decide)]
  have hm : '=' ∈ pyStripList w.data := mem_pyStripList w.data heq (by decide)
  have hlines : pyLines w.data = [w.data] := pyLines_single w.data hwne hnl
  have hcontains : (pyStripList w.data).contains '=' = true :=
    List.elem_eq_true_of_mem hm
  have hcond : (!(pyStripList w.data).isEmpty && !(pyStripList w.data).contains '=' &&
      decide ((pyStripList w.data).length < 400)) = false := by
    rw [hcontains]
    cases (!(pyStripList w.data).isEmpty) <;> rfl
  unfold parseAndRepair
  rw [hrb, htag, hlines]
  rw [show ([w.data].getLast? : Option (List Char)) = some w.data from rfl]
  cases parse w with
  | ok => rfl
  | otherError => rfl
  | syntaxError =>
    dsimp only
    rw [hcond]
    rfl

/-- C5 counterexample: the bare call eval of x is a single call-like
expression with no assignment operator and no mention of the binding
name, yet repairing yields the sanitized marker form, not the plain
wrapped form the claim promises; the outcome is the same for every parse
oracle, the string being unparseable and assignment-bearing. -/
theorem C5_counterexample :
    fix_invalid_code parseAll "eval(x)" =
      Except.ok "result = # [REMOVED_DANGEROUS] eval(x)" ∧
    "result = # [REMOVED_DANGEROUS] eval(x)" ≠ "result = eval(x)" ∧
    looks_like_single_expr "eval(x)" = true ∧
    containsStr "eval(x)" "result" = false := ⟨rfl, by decide, by decide, by decide⟩

/-- C5 amended: for a single-line bare expression the heuristic accepts,
that nowhere mentions the binding, on which the normalization stages are
identities and whose wrapped form matches no dangerous pattern, repair
yields exactly the binding assignment to it, for every parse oracle. -/
theorem C5_wrapping (parse : String → ParseResult) (E : String)
    (h1 : extract_code_block E = E)
    (h2 : replace_smart E = E)
    (h3 : stripLabel E = E)
    (h4 : jsonCodeStage E = Except.ok E)
    (h5 : looks_like_single_expr E = true)
    (h6 : containsStr E "result" = false)
    (h7 : pyStrip E = E)
    (h8 : '\n' ∉ E.data)
    (h9 : Char.ofNat 96 ∉ E.data)
    (h10 : sanitize_dangerous ("result = " ++ E) = "result = " ++ E) :
    fix_invalid_code parse E = Except.ok ("result = " ++ E) := by
  have hne : E ≠ "" := by
    intro hh
    rw [hh] at h5
    exact absurd h5 (by decide)
  unfold fix_invalid_code
  rw [if_neg hne, h1, h2, h3, h4]
  have hcontract : contractStage E = "result = " ++ E := by
    unfold contractStage
    rw [h5, h6, h7]
    rfl
  rw [show (match (Except.ok E : Except String String) with
      | .error e => (Except.error e : Except String String)
      | .ok c4 => Except.ok (parseAndRepair parse (sanitize_dangerous (contractStage c4)))) =
      Except.ok (parseAndRepair parse (sanitize_dangerous (contractStage E))) from rfl]
  rw [hcontract, h10]
  rw [parseAndRepair_fixed parse ("result = " ++ E) ?_ ?_ ?_ ?_]
  · rw [String.data_append]
    intro hm
    rcases List.mem_append.mp hm with hl | hr
    · exact absurd hl (by decide)
    · exact h9 hr
  · rw [String.data_append]
    rfl
  · rw [String.data_append]
    intro hm
    rcases List.mem_append.mp hm with hl | hr
    · exact absurd hl (by decide)
    · exact h8 hr
  · rw [String.data_append]
    exact List.mem_append.mpr (Or.inl (by decide))

/-- C5 witness: the wrapping law at a concrete call-like line. -/
theorem C5_wrapping_witness :
    fix_invalid_code parseAll "f(x)" = Except.ok ("result = " ++ "f(x)") :=
  C5_wrapping parseAll "f(x)" rfl rfl rfl rfl (by decide) (by decide) rfl
    (by decide) (by decide) rfl

/-- C6 counterexample: a single-line call whose argument list contains an
assignment operator is still wrapped by the contract-enforcement stage,
refuting the never-rewrites-on-assignment reading: the call-like branch
of the heuristic fires before the assignment test is consulted. -/
theorem C6_counterexample :
    contractStage "f(x=1)" = "result = f(x=1)" ∧
    '=' ∈ "f(x=1)".data ∧
    "result = f(x=1)" ≠ "f(x=1)" := by decide

/-- C6 amended: the contract-enforcement stage leaves a snippet untouched
when it does not reduce to exactly one non-blank line, or mentions the
binding name anywhere, or its single stripped line contains an assignment
operator and starts with none of the dataset-access, bracket or call-like
prefixes; a single line that does start call-like is wrapped even when it
contains an assignment character. -/
theorem C6_enforcer_untouched (code : String)
    (h : ((pyLines (pyStripList code.data)).filter
          (fun l => !(pyStripList l).isEmpty)).length ≠ 1 ∨
        containsStr code "result" = true ∨
        (∃ l0, (pyLines (pyStripList code.data)).filter
            (fun l => !(pyStripList l).isEmpty) = [l0] ∧
          '=' ∈ pyStripList l0 ∧
          "df.".data.isPrefixOf (pyStripList l0) = false ∧
          "df[".data.isPrefixOf (pyStripList l0) = false ∧
          "(".data.isPrefixOf (pyStripList l0) = false ∧
          "[".data.isPrefixOf (pyStripList l0) = false ∧
          wordParen (pyStripList l0) = false)) :
    contractStage code = code := by
  unfold contractStage
  rcases h with h1 | h2 | h3
  · have hlk : looks_like_single_expr code = false := by
      unfold looks_like_single_expr
      cases hf : (pyLines (pyStripList code.data)).filter
          (fun l => !(pyStripList l).isEmpty) with
      | nil => rfl
      | cons a t =>
        cases t with
        | nil => exact absurd (by rw [hf]; rfl) h1
        | cons b u => rfl
    rw [hlk]
    rfl
  · rw [h2]
    cases looks_like_single_expr code <;> rfl
  · obtain ⟨l0, hl, hmem, hp1, hp2, hp3, hp4, hp5⟩ := h3
    have hlk : looks_like_single_expr code = false := by
      unfold looks_like_single_expr
      rw [hl]
      dsimp only
      by_cases hr : "result".data.isPrefixOf (pyStripList l0)
      · rw [if_pos hr]
      · rw [if_neg hr, hp1, hp2, hp3, hp4, hp5]
        simp only [Bool.or_self, Bool.false_eq_true, if_false]
        have : (pyStripList l0).contains '=' = true := List.elem_eq_true_of_mem hmem
        rw [this]
        cases (decide ((pyStripList l0).length < 400)) <;> rfl
    rw [hlk]
    rfl

/-- C6 witness: a single-line comparison with no call-like prefix is left
untouched. -/
theorem C6_enforcer_untouched_witness : contractStage "x == y" = "x == y" :=
  C6_enforcer_untouched "x == y"
    (Or.inr (Or.inr ⟨"x == y".data, by decide, by decide, by decide, by decide,
      by decide, by decide, by decide⟩))

/-- C7 counterexample: the snippet x is syntactically valid (the oracle,
like CPython, accepts it), yet repair wraps it into a binding assignment,
a change beyond whitespace normalization; the wrapped result is the same
for every parse oracle. -/
theorem C7_counterexample :
    fix_invalid_code parseAll "x" = Except.ok "result = x" ∧
    pyStrip "result = x" ≠ pyStrip "x" ∧
    parseAll "x" = ParseResult.ok := ⟨rfl, by decide, rfl⟩

/-- C7 amended: repairing an already-valid snippet returns it unchanged
provided the extraction, normalization, contract-enforcement and
sanitization stages leave it fixed, that is, it has no fence or code tag,
no smart characters, no label prefix, no JSON code envelope, is not a
bare single expression the enforcer wraps, and matches no dangerous
pattern. -/
theorem C7_idempotent (parse : String → ParseResult) (s : String)
    (h1 : extract_code_block s = s)
    (h2 : replace_smart s = s)
    (h3 : stripLabel s = s)
    (h4 : jsonCodeStage s = Except.ok s)
    (h5 : contractStage s = s)
    (h6 : sanitize_dangerous s = s)
    (h7 : parse s = ParseResult.ok) :
    fix_invalid_code parse s = Except.ok s := by
  by_cases hs : s = ""
  · rw [hs]
    rfl
  · unfold fix_invalid_code
    rw [if_neg hs, h1, h2, h3, h4]
    rw [show (match (Except.ok s : Except String String) with
        | .error e => (Except.error e : Except String String)
        | .ok c4 => Except.ok (parseAndRepair parse (sanitize_dangerous (contractStage c4)))) =
        Except.ok (parseAndRepair parse (sanitize_dangerous (contractStage s))) from rfl]
    rw [h5, h6]
    unfold parseAndRepair
    rw [h7]

/-- C7 witness: an already-assigned valid line passes through unchanged. -/
theorem C7_idempotent_witness :
    fix_invalid_code parseAll "result = 1" = Except.ok "result = 1" :=
  C7_idempotent parseAll "result = 1" rfl rfl rfl rfl rfl rfl rfl

end Cyberflux
